import Mathlib

/-!
Verification of the Phase 2.3 integration scripts
(`scripts/complete-phase-2-3.py`, `scripts/integrate-phase-2-3.py`,
`scripts/final-phase-2-3.py`).

The scripts transform one text file by an ordered sequence of textual
rewrite rules and write the result back once.  We embed the buffer as
`List Char` and the two kinds of rule applications used by the scripts:

* Python `str.replace(old, new)`: replace every non-overlapping
  occurrence of `old`, scanning left to right (`repAll` below);
* `re.sub(pat, new, s)` where `pat` is a fully escaped (hence literal)
  pattern: identical semantics to `str.replace`, so also `repAll`;
* `re.sub` with a genuinely non-literal regex: kept abstract as a
  parameter function `List Char → List Char` (the regex engine is
  Python library code, not part of this repository).

The scanning functions take an explicit fuel argument (decreasing by one
per consumed character) so that they are structurally recursive and the
kernel can evaluate them on concrete inputs; the wrappers instantiate
the fuel with the buffer length, which is always sufficient.
-/

set_option maxRecDepth 100000

/-- Shorthand: the character list of a string literal. -/
def S (s : String) : List Char := s.data

/-- Fuel-indexed core of Python `str.replace`: replace every
non-overlapping occurrence of `pat` by `rep`, scanning left to right.
At each position, if `pat` (nonempty) matches, emit `rep` and continue
after the match; otherwise keep the character and move on.  With
`fuel ≥ length` the fuel never runs out. -/
def repAllF (pat rep : List Char) : Nat → List Char → List Char
  | _, [] => []
  | 0, s => s
  | fuel + 1, c :: s =>
    if pat.isPrefixOf (c :: s) && !pat.isEmpty then
      rep ++ repAllF pat rep fuel ((c :: s).drop pat.length)
    else
      c :: repAllF pat rep fuel s

/-- Fuel-indexed core of Python `str.split(pat)`: the chunks of the
buffer between the non-overlapping occurrences of `pat`, found by the
same left-to-right scan as `repAllF`. -/
def splitOnLF (pat : List Char) : Nat → List Char → List (List Char)
  | _, [] => [[]]
  | 0, s => [s]
  | fuel + 1, c :: s =>
    if pat.isPrefixOf (c :: s) && !pat.isEmpty then
      [] :: splitOnLF pat fuel ((c :: s).drop pat.length)
    else
      match splitOnLF pat fuel s with
      | [] => [[c]]
      | h :: t => (c :: h) :: t

/-- Fuel-indexed count of the matches found by the scan of `repAllF`:
the number of replacements `str.replace` performs. -/
def cntOccsF (pat : List Char) : Nat → List Char → Nat
  | _, [] => 0
  | 0, _ => 0
  | fuel + 1, c :: s =>
    if pat.isPrefixOf (c :: s) && !pat.isEmpty then
      cntOccsF pat fuel ((c :: s).drop pat.length) + 1
    else
      cntOccsF pat fuel s

/-- Python `str.replace(pat, rep)` on a buffer. -/
def repAll (pat rep s : List Char) : List Char := repAllF pat rep s.length s

/-- The chunks of `s` between occurrences of `pat` (Python `str.split`). -/
def splitOnL (pat s : List Char) : List (List Char) := splitOnLF pat s.length s

/-- Number of occurrences of `pat` replaced by `str.replace` on `s`. -/
def cntOccs (pat s : List Char) : Nat := cntOccsF pat s.length s

/-- Join a list of chunks with a separator (inverse of `splitOnL`). -/
def jn (sep : List Char) : List (List Char) → List Char
  | [] => []
  | [a] => a
  | a :: b :: t => a ++ sep ++ jn sep (b :: t)

/-- A literal rewrite rule: locator pattern and replacement text.
Applying it is Python `buffer.replace(locator, replacement)`. -/
def applyRule (buf : List Char) (r : List Char × List Char) : List Char :=
  repAll r.1 r.2 buf

/-- A rule given as an arbitrary buffer transformation (used for the
steps of the scripts whose locator is a genuine regular expression). -/
def applyRuleF (buf : List Char) (r : List Char → List Char) : List Char :=
  r buf

/-- No occurrence of `pat` starts anywhere in `t`. -/
def NoMatch (pat t : List Char) : Prop := ∀ p, ¬ pat <+: t.drop p

/-- No occurrence of `pat` starts strictly inside the prefix `a`
of the buffer `a ++ r`. -/
def NoEarly (pat a r : List Char) : Prop :=
  ∀ p, p < a.length → ¬ pat <+: (a ++ r).drop p

/-- Decidable check: within `X`, no position starts an occurrence of
`pat`, even one that would continue past the end of `X` into whatever
follows.  Checked positionally: where the tail of `X` is at least as
long as `pat`, `pat` must not match there; where it is shorter, that
tail must not be a prefix of `pat`. -/
def cleanAfter (pat X : List Char) : Bool :=
  (List.range X.length).all fun p =>
    if pat.length ≤ X.length - p then !(pat.isPrefixOf (X.drop p))
    else !((X.drop p).isPrefixOf pat)

/-! Python line splitting, as used by the scripts' line counts. -/

/-- Python `content.split('\n')`: the chunks between newline characters;
always at least one chunk. -/
def pySplitNl : List Char → List (List Char)
  | [] => [[]]
  | c :: s =>
    if c = '\n' then [] :: pySplitNl s
    else match pySplitNl s with
      | [] => [[c]]
      | h :: t => (c :: h) :: t

/-- Python universal-newline boundary characters recognised by
`str.splitlines`. -/
def isLineBreak (c : Char) : Bool :=
  c == '\n' || c == '\r' || c == '\x0b' || c == '\x0c' ||
  c == '\x1c' || c == '\x1d' || c == '\x1e' || c == '\x85' ||
  c == '\u2028' || c == '\u2029'

/-- Python `content.splitlines()`: lines of the buffer, with `\r\n`
counted as a single boundary and no trailing empty line; the empty
string yields no lines at all. -/
def pySplitlines : List Char → List (List Char)
  | [] => []
  | '\r' :: '\n' :: rest => [] :: pySplitlines rest
  | c :: rest =>
    if isLineBreak c then [] :: pySplitlines rest
    else match pySplitlines rest with
      | [] => [[c]]
      | h :: t => (c :: h) :: t

/-- Line count as the scripts that use `split('\n')` compute it. -/
def lineCountNl (s : List Char) : Nat := (pySplitNl s).length

/-! A small file-system step machine.  A run of any of the scripts is a
sequence of in-memory buffer transformations followed by a single write
of the buffer to disk; `final-phase-2-3.py` afterwards performs a
division that fails when the original line count is zero, modelled as a
guard step. -/

/-- State of a run: the on-disk content, the in-memory buffer, and the
number of writes performed so far. -/
structure FileSt where
  disk : List Char
  buf : List Char
  writes : Nat

/-- One step of a script run: a fallible in-memory transformation, the
write-back of the buffer, or a pure check that may fail (raising). -/
inductive FOp where
  | applyF (f : List Char → Option (List Char))
  | writeF
  | guardF (ok : Bool)

/-- Execute one step; `none` models a raised exception. -/
def execOp (s : FileSt) : FOp → Option FileSt
  | .applyF f => (f s.buf).map fun b => { s with buf := b }
  | .writeF => some { s with disk := s.buf, writes := s.writes + 1 }
  | .guardF ok => if ok then some s else none

/-- Execute a list of steps, stopping at the first failure; the flag
records whether the run completed. -/
def execOps : List FOp → FileSt → FileSt × Bool
  | [], s => (s, true)
  | op :: rest, s =>
    match execOp s op with
    | none => (s, false)
    | some s2 => execOps rest s2

/-- The shape all three scripts share: apply every rule in order, then
write the buffer back once. -/
def scriptOps (fs : List (List Char → Option (List Char))) : List FOp :=
  fs.map FOp.applyF ++ [FOp.writeF]

/-- The state at the start of a run on a file with content `c`. -/
def startSt (c : List Char) : FileSt := ⟨c, c, 0⟩

/-! The concrete rewrite rules of the three scripts.  Locators and
replacements are transcribed from the scripts' string literals; for the
`re.sub` calls whose pattern is fully backslash-escaped, the unescaped
literal text is used (such a pattern matches exactly that literal, and
`re.sub` then behaves exactly like `str.replace`).  Brace characters are
written with hexadecimal escapes. -/

/-- Landmark for the hook imports (complete part 1, integrate step 1). -/
def apiKeyRotationImport : List Char :=
  S "import \x7b useApiKeyRotation \x7d from \"@/hooks/useApiKeyRotation\";"

/-- The three hook import lines inserted after the landmark. -/
def hook_imports : List Char :=
  S "import \x7b useDisplayConfirmation \x7d from \"@/hooks/useDisplayConfirmation\";\nimport \x7b useStorageSync \x7d from \"@/hooks/useStorageSync\";\nimport \x7b usePlayerInitialization \x7d from \"@/hooks/usePlayerInitialization\";"

/-- Landmark for the component imports (complete part 2, integrate step 2). -/
def creditsDisplayImport : List Char :=
  S "import \x7b CreditsDisplay \x7d from \"@/components/CreditsDisplay\";"

/-- The six component import lines inserted after their landmark. -/
def component_imports : List Char :=
  S "import \x7b NowPlayingTicker \x7d from \"@/components/NowPlayingTicker\";\nimport \x7b PlayerClosedNotification \x7d from \"@/components/PlayerClosedNotification\";\nimport \x7b MiniPlayer \x7d from \"@/components/MiniPlayer\";\nimport \x7b SearchButton \x7d from \"@/components/SearchButton\";\nimport \x7b UpcomingQueue \x7d from \"@/components/UpcomingQueue\";\nimport \x7b FooterControls \x7d from \"@/components/FooterControls\";"

/-- The captured display-confirmation block (integrate step 3's pattern,
unescaped): the `pendingDisplayConfirmation` state declaration and its
three callback declarations, 34 lines. -/
def old_display_logic : List Char :=
  S "  // Display confirmation callbacks - must be defined before usePlayerManager\n  const [pendingDisplayConfirmation, setPendingDisplayConfirmation] = useState<\x7b\n    displayInfo: DisplayInfo;\n    onConfirm: (useFullscreen: boolean, rememberChoice: boolean) => void;\n    onCancel: () => void;\n  \x7d | null>(null);\n\n  const handleDisplayConfirmationNeeded = useCallback(\n    (\n      displayInfo: DisplayInfo,\n      onConfirm: (useFullscreen: boolean, rememberChoice: boolean) => void,\n      onCancel: () => void,\n    ) => \x7b\n      setPendingDisplayConfirmation(\x7b displayInfo, onConfirm, onCancel \x7d);\n    \x7d,\n    [],\n  );\n\n  const handleDisplayConfirmationResponse = useCallback(\n    (useFullscreen: boolean, rememberChoice: boolean) => \x7b\n      if (pendingDisplayConfirmation) \x7b\n        pendingDisplayConfirmation.onConfirm(useFullscreen, rememberChoice);\n        setPendingDisplayConfirmation(null);\n      \x7d\n    \x7d,\n    [pendingDisplayConfirmation],\n  );\n\n  const handleDisplayConfirmationCancel = useCallback(() => \x7b\n    if (pendingDisplayConfirmation) \x7b\n      pendingDisplayConfirmation.onCancel();\n      setPendingDisplayConfirmation(null);\n    \x7d\n  \x7d, [pendingDisplayConfirmation]);"

/-- The two replacement lines for the display-confirmation block. -/
def new_display_logic : List Char :=
  S "  // Display confirmation hook\n  const displayConfirmation = useDisplayConfirmation();"

/-- Call-site rename: old identifier occurrence. -/
def renameNeeded_old : List Char := S "handleDisplayConfirmationNeeded,"

/-- Call-site rename: new qualified identifier. -/
def renameNeeded_new : List Char :=
  S "displayConfirmation.handleDisplayConfirmationNeeded,"

/-- Landmark for the hook-call insertions (complete part 4 / integrate
step 5). -/
def useApiKeyRotationCall : List Char :=
  S "  \x7d = useApiKeyRotation(state, setState, toast);"

/-- The storage-sync and player-initialization hook calls inserted after
that landmark (leading newline as in the scripts' triple-quoted string). -/
def hooks_addition : List Char :=
  S "\n  // Storage synchronization hook (player window communication)\n  useStorageSync(\x7b\n    state,\n    setState,\n    addLog,\n    handleVideoEnded,\n    toast,\n  \x7d);\n\n  // Player initialization hook (auto-start first song)\n  usePlayerInitialization(\x7b\n    state,\n    initializePlayer,\n    playNextSong,\n  \x7d);"

/-- Landmark shared by steps 1 and 2 of final-phase-2-3.py. -/
def apiKeyTestDialogImport : List Char :=
  S "import \x7b ApiKeyTestDialog \x7d from \"@/components/ApiKeyTestDialog\";"

/-- Step 4 of final-phase-2-3.py appends this after the display hook pair. -/
def storage_sync_addition : List Char :=
  S "\n  // Storage synchronization hook (player window communication)\n  useStorageSync(\x7b\n    state,\n    setState,\n    addLog,\n    handleVideoEnded,\n    toast,\n  \x7d);"

/-- Step 5 of final-phase-2-3.py appends this after the storage-sync call. -/
def player_init_addition : List Char :=
  S "\n\n  // Player initialization hook (auto-start first song)\n  usePlayerInitialization(\x7b\n    state,\n    initializePlayer,\n    playNextSong,\n  \x7d);"

/-- The buffer transformation of `integrate_phase_2_3` in
integrate-phase-2-3.py: its five steps in order.  Steps 1, 2, 4 and 5
are `str.replace`; step 3 is `re.sub` with a fully escaped (literal)
pattern, hence also a literal replace. -/
def integrate_phase_2_3 (content : List Char) : List Char :=
  let c1 := repAll apiKeyRotationImport (apiKeyRotationImport ++ S "\n" ++ hook_imports) content
  let c2 := repAll creditsDisplayImport (creditsDisplayImport ++ S "\n" ++ component_imports) c1
  let c3 := repAll old_display_logic new_display_logic c2
  let c4 := repAll renameNeeded_old renameNeeded_new c3
  let c5 := repAll useApiKeyRotationCall (useApiKeyRotationCall ++ S "\n" ++ hooks_addition) c4
  c5

/-- The rule list of integrate-phase-2-3.py, in its textual order. -/
def integrateRules : List (List Char × List Char) :=
  [ (apiKeyRotationImport, apiKeyRotationImport ++ S "\n" ++ hook_imports)
  , (creditsDisplayImport, creditsDisplayImport ++ S "\n" ++ component_imports)
  , (old_display_logic, new_display_logic)
  , (renameNeeded_old, renameNeeded_new)
  , (useApiKeyRotationCall, useApiKeyRotationCall ++ S "\n" ++ hooks_addition) ]

/-- The buffer transformation of `integrate_complete` in
complete-phase-2-3.py: its eight steps in order.  The display-block,
autoplay-removal, storage-removal and dialog substitutions use genuine
(non-literal) regexes, so they are abstract parameters here. -/
def integrate_complete (subDisplay subAutoplay subStorage subDialog : List Char → List Char)
    (content : List Char) : List Char :=
  let c1 := repAll apiKeyRotationImport (apiKeyRotationImport ++ S "\n" ++ hook_imports) content
  let c2 := repAll creditsDisplayImport (creditsDisplayImport ++ S "\n" ++ component_imports) c1
  let c3 := subDisplay c2
  let c4 := repAll renameNeeded_old renameNeeded_new c3
  let c5 := repAll useApiKeyRotationCall (useApiKeyRotationCall ++ S "\n" ++ hooks_addition) c4
  let c6 := subAutoplay c5
  let c7 := subStorage c6
  let c8 := subDialog c7
  c8

/-- The rule list of complete-phase-2-3.py, in its textual order. -/
def completeRules (subDisplay subAutoplay subStorage subDialog : List Char → List Char) :
    List (List Char → List Char) :=
  [ fun b => repAll apiKeyRotationImport (apiKeyRotationImport ++ S "\n" ++ hook_imports) b
  , fun b => repAll creditsDisplayImport (creditsDisplayImport ++ S "\n" ++ component_imports) b
  , subDisplay
  , fun b => repAll renameNeeded_old renameNeeded_new b
  , fun b => repAll useApiKeyRotationCall (useApiKeyRotationCall ++ S "\n" ++ hooks_addition) b
  , subAutoplay
  , subStorage
  , subDialog ]

/-- Step 1 of final-phase-2-3.py: `re.sub` with a one-group literal
pattern (the ApiKeyTestDialog import) and replacement `\1` followed by
the three hook import lines — a literal replace of the landmark by
itself plus the insertion. -/
def final_step1 (content : List Char) : List Char :=
  repAll apiKeyTestDialogImport (apiKeyTestDialogImport ++ S "\n" ++ hook_imports) content

/-- Step 2 of final-phase-2-3.py: same landmark, inserting the six
component import lines. -/
def final_step2 (content : List Char) : List Char :=
  repAll apiKeyTestDialogImport (apiKeyTestDialogImport ++ S "\n" ++ component_imports) content

/-- The buffer transformation of `main` in final-phase-2-3.py: its 13
steps in order.  Step 3 and steps 7-13 use genuine regexes and are
abstract parameters; the rest are literal replaces. -/
def final_main (sub3 sub7 sub8 sub9 sub10 sub11 sub12 sub13 : List Char → List Char)
    (content : List Char) : List Char :=
  let c1 := final_step1 content
  let c2 := final_step2 c1
  let c3 := sub3 c2
  let c4 := repAll new_display_logic (new_display_logic ++ storage_sync_addition) c3
  let c5 := repAll storage_sync_addition (storage_sync_addition ++ player_init_addition) c4
  let c6 := repAll renameNeeded_old renameNeeded_new c5
  let c7 := sub7 c6
  let c8 := sub8 c7
  let c9 := sub9 c8
  let c10 := sub10 c9
  let c11 := sub11 c10
  let c12 := sub12 c11
  let c13 := sub13 c12
  c13

/-- The rule list of final-phase-2-3.py, in its textual order. -/
def finalRules (sub3 sub7 sub8 sub9 sub10 sub11 sub12 sub13 : List Char → List Char) :
    List (List Char → List Char) :=
  [ final_step1
  , final_step2
  , sub3
  , fun b => repAll new_display_logic (new_display_logic ++ storage_sync_addition) b
  , fun b => repAll storage_sync_addition (storage_sync_addition ++ player_init_addition) b
  , fun b => repAll renameNeeded_old renameNeeded_new b
  , sub7, sub8, sub9, sub10, sub11, sub12, sub13 ]

/-- Sequential execution of a rule list as a relation: the run consumes
the rules in order, each rule reading the previous rule's output. -/
inductive RunsTo : List (List Char → List Char) → List Char → List Char → Prop where
  | done (b : List Char) : RunsTo [] b b
  | step (r : List Char → List Char) (rs : List (List Char → List Char))
      (b b2 : List Char) : RunsTo rs (r b) b2 → RunsTo (r :: rs) b b2

/-- The run summary printed at the end of a script. -/
structure RunReport where
  originalLines : Nat
  newLines : Nat
  reduction : Int
  percentage : ℚ

/-- The summary computed by complete-phase-2-3.py (lines 129-137) from
the loaded snapshot and the final buffer: line counts via `split('\n')`,
their difference, and the difference as a percentage of the original.
The percentage is modelled as an exact rational. -/
def mkReport (original final : List Char) : RunReport :=
  { originalLines := lineCountNl original
  , newLines := lineCountNl final
  , reduction := (lineCountNl original : Int) - (lineCountNl final : Int)
  , percentage :=
      ((lineCountNl original : ℚ) - (lineCountNl final : ℚ)) / (lineCountNl original : ℚ) * 100 }

/-- The step list of a run of final-phase-2-3.py: the transformations,
the single write (line 154), then the percentage computation (line 158),
which raises `ZeroDivisionError` exactly when the original
`splitlines()` count is zero — modelled as a guard on that count. -/
def finalOpsModel (fs : List (List Char → List Char)) (c : List Char) : List FOp :=
  (fs.map fun g => FOp.applyF (fun b => some (g b))) ++
    [FOp.writeF, FOp.guardF ((pySplitlines c).length != 0)]

/-- The fixture line named by the specification for the import-insertion
scenario (note the `"lib/..."` module path). -/
def specFixture : List Char :=
  S "import \x7b useApiKeyRotation \x7d from \"lib/useApiKeyRotation\";"

/-- The replacement text of the hook-import rule: landmark plus the
three inserted lines. -/
def hookRuleRep : List Char := apiKeyRotationImport ++ S "\n" ++ hook_imports

/-- C4 counterexample: on the fixture that is exactly the line named by
the specification (module path `"lib/useApiKeyRotation"`), the
import-insertion rule of the scripts — whose landmark is the
`"@/hooks/useApiKeyRotation"` import — matches nothing: the buffer is
returned unchanged, still a single line, not the landmark followed by
three new import lines. -/
theorem import_insertion_wrong_path_counterexample :
    applyRule specFixture (apiKeyRotationImport, hookRuleRep) = specFixture ∧
    (pySplitNl (applyRule specFixture (apiKeyRotationImport, hookRuleRep))).length = 1 ∧
    applyRule specFixture (apiKeyRotationImport, hookRuleRep) ≠
      specFixture ++ S "\n" ++ hook_imports := by
  refine ⟨by decide, by decide, by decide⟩

/-! Basic facts about prefixes, `take` and `drop`. -/

theorem prefix_append_iff_of_le (pat u v : List Char) (h : pat.length ≤ u.length) :
    pat <+: u ++ v ↔ pat <+: u := by
  constructor
  · intro hp
    rw [List.prefix_iff_eq_take] at hp ⊢
    rwa [List.take_append_eq_append_take, Nat.sub_eq_zero_of_le h, List.take_zero,
      List.append_nil] at hp
  · intro hp
    exact hp.trans (List.prefix_append u v)

theorem prefix_of_prefix_append (pat u v : List Char) (h : pat <+: u ++ v)
    (hl : u.length ≤ pat.length) : u <+: pat := by
  rw [List.prefix_iff_eq_take, List.take_append_eq_append_take,
    List.take_of_length_le hl] at h
  rw [h]
  exact List.prefix_append _ _

theorem append_drop_decomp {pat s : List Char} (h : pat <+: s) :
    s = pat ++ s.drop pat.length := by
  obtain ⟨t, rfl⟩ := h
  rw [List.drop_left]

theorem drop_append_of_le {u v : List Char} {p : Nat} (h : p ≤ u.length) :
    (u ++ v).drop p = u.drop p ++ v := by
  rw [List.drop_append_eq_append_drop, Nat.sub_eq_zero_of_le h, List.drop_zero]

/-! Facts about the scanning functions. -/

theorem splitOnLF_ne_nil (pat : List Char) : ∀ (fuel : Nat) (s : List Char),
    splitOnLF pat fuel s ≠ []
  | _, [] => by simp [splitOnLF]
  | 0, _ :: _ => by simp [splitOnLF]
  | _ + 1, c :: s => by
    simp only [splitOnLF]
    split
    · simp
    · split <;> simp

theorem jn_single (sep a : List Char) : jn sep [a] = a := rfl

theorem jn_cons (sep a : List Char) (l : List (List Char)) (h : l ≠ []) :
    jn sep (a :: l) = a ++ sep ++ jn sep l := by
  match l with
  | _ :: _ => rfl
  | [] => exact absurd rfl h

/-- Splitting the condition of the scan into its two parts. -/
theorem scanCond_iff (pat u : List Char) :
    (pat.isPrefixOf u && !pat.isEmpty) = true ↔ pat <+: u ∧ pat ≠ [] := by
  simp [ List.isPrefixOf_iff_prefix, List.isEmpty_iff]

/-- Python `str.replace` equals splitting on the pattern and joining the
chunks with the replacement. -/
theorem repAllF_eq_jn (pat rep : List Char) : ∀ (fuel : Nat) (s : List Char),
    repAllF pat rep fuel s = jn rep (splitOnLF pat fuel s)
  | _, [] => by simp [repAllF, splitOnLF, jn]
  | 0, _ :: _ => by simp [repAllF, splitOnLF, jn]
  | fuel + 1, c :: s => by
    simp only [repAllF, splitOnLF]
    split
    · rw [repAllF_eq_jn pat rep fuel, jn_cons _ _ _ (splitOnLF_ne_nil _ _ _)]
      simp
    · rw [repAllF_eq_jn pat rep fuel]
      cases hs : splitOnLF pat fuel s with
      | nil => exact absurd hs (splitOnLF_ne_nil _ _ _)
      | cons h t =>
        cases t with
        | nil => simp [jn]
        | cons b t2 => simp [jn]

/-- Joining the chunks with the pattern itself recovers the buffer:
the chunks are exactly the unmatched content. -/
theorem jn_splitOnLF (pat : List Char) : ∀ (fuel : Nat) (s : List Char),
    jn pat (splitOnLF pat fuel s) = s
  | _, [] => by simp [splitOnLF, jn]
  | 0, _ :: _ => by simp [splitOnLF, jn]
  | fuel + 1, c :: s => by
    simp only [splitOnLF]
    split
    · next hcond =>
      obtain ⟨hpre, -⟩ := (scanCond_iff _ _).mp hcond
      rw [jn_cons _ _ _ (splitOnLF_ne_nil _ _ _), jn_splitOnLF pat fuel]
      simpa using (append_drop_decomp hpre).symm
    · cases hs : splitOnLF pat fuel s with
      | nil => exact absurd hs (splitOnLF_ne_nil _ _ _)
      | cons h t =>
        have ih := jn_splitOnLF pat fuel s
        rw [hs] at ih
        cases t with
        | nil => simp only [jn_single] at ih; simp [jn, ih]
        | cons b t2 =>
          rw [jn_cons _ _ _ (by simp)] at ih
          rw [jn_cons _ _ _ (by simp), ← ih]
          simp

/-- The scan produces one more chunk than it finds matches. -/
theorem splitOnLF_length (pat : List Char) : ∀ (fuel : Nat) (s : List Char),
    (splitOnLF pat fuel s).length = cntOccsF pat fuel s + 1
  | _, [] => by simp [splitOnLF, cntOccsF]
  | 0, _ :: _ => by simp [splitOnLF, cntOccsF]
  | fuel + 1, c :: s => by
    simp only [splitOnLF, cntOccsF]
    split
    · simp [splitOnLF_length pat fuel]
    · cases hs : splitOnLF pat fuel s with
      | nil => exact absurd hs (splitOnLF_ne_nil _ _ _)
      | cons h t =>
        have ih := splitOnLF_length pat fuel s
        rw [hs] at ih
        simpa using ih

/-- The scan finds no match exactly when no occurrence of the (nonempty)
pattern starts anywhere in the buffer. -/
theorem cntOccsF_eq_zero_iff (pat : List Char) (hp : pat ≠ []) :
    ∀ (fuel : Nat) (s : List Char), s.length ≤ fuel →
    (cntOccsF pat fuel s = 0 ↔ NoMatch pat s)
  | _, [], _ => by
    simp only [cntOccsF, NoMatch, List.drop_nil, List.prefix_nil]
    simp [hp]
  | 0, c :: s, hlen => by simp at hlen
  | fuel + 1, c :: s, hlen => by
    simp only [cntOccsF]
    split
    · next hcond =>
      obtain ⟨hpre, -⟩ := (scanCond_iff _ _).mp hcond
      constructor
      · intro h0
        exact absurd h0 (by omega)
      · intro hnm
        exact absurd (by simpa using hnm 0) (by simp [hpre])
    · next hcond =>
      have hnp : ¬ pat <+: (c :: s) := by
        intro hpre
        exact hcond ((scanCond_iff _ _).mpr ⟨hpre, hp⟩)
      rw [cntOccsF_eq_zero_iff pat hp fuel s (by simpa using hlen)]
      constructor
      · intro hnm p
        cases p with
        | zero => simpa using hnp
        | succ q => simpa using hnm q
      · intro hnm p
        simpa using hnm (p + 1)

/-- A buffer with no match splits into a single chunk: itself. -/
theorem splitOnLF_of_noMatch (pat : List Char) (hp : pat ≠ []) :
    ∀ (fuel : Nat) (s : List Char), NoMatch pat s → splitOnLF pat fuel s = [s]
  | _, [], _ => by simp [splitOnLF]
  | 0, c :: s, _ => by simp [splitOnLF]
  | fuel + 1, c :: s, hnm => by
    simp only [splitOnLF]
    split
    · next hcond =>
      obtain ⟨hpre, -⟩ := (scanCond_iff _ _).mp hcond
      exact absurd (by simpa using hnm 0) (by simp [hpre])
    · have hnm' : NoMatch pat s := fun p => by simpa using hnm (p + 1)
      rw [splitOnLF_of_noMatch pat hp fuel s hnm']

/-- Inversion: a single-chunk split means the chunk is the whole buffer
and the pattern does not occur in it. -/
theorem splitOnLF_eq_single (pat : List Char) (hp : pat ≠ []) :
    ∀ (fuel : Nat) (s x : List Char), s.length ≤ fuel →
    splitOnLF pat fuel s = [x] → s = x ∧ NoMatch pat s
  | _, [], x, _ => by
    simp only [splitOnLF, List.cons.injEq, and_true]
    rintro ⟨rfl⟩
    refine ⟨rfl, ?_⟩
    intro p
    simp [List.prefix_nil, hp]
  | 0, c :: s, x, hlen => by simp at hlen
  | fuel + 1, c :: s, x, hlen => by
    simp only [splitOnLF]
    split
    · next hcond =>
      intro h
      have := splitOnLF_ne_nil pat fuel ((c :: s).drop pat.length)
      simp only [List.cons.injEq] at h
      exact absurd h.2 this
    · next hcond =>
      have hnp : ¬ pat <+: (c :: s) := by
        intro hpre
        exact hcond ((scanCond_iff _ _).mpr ⟨hpre, hp⟩)
      cases hs : splitOnLF pat fuel s with
      | nil => exact absurd hs (splitOnLF_ne_nil _ _ _)
      | cons h t =>
        intro heq
        simp only [List.cons.injEq] at heq
        obtain ⟨rfl, rfl⟩ := heq
        have hs' : splitOnLF pat fuel s = [h] := hs
        obtain ⟨rfl, hnm⟩ :=
          splitOnLF_eq_single pat hp fuel s h (by simpa using hlen) hs'
        refine ⟨rfl, ?_⟩
        intro p
        cases p with
        | zero => simpa using hnp
        | succ q => simpa using hnm q

/-- Inversion: a two-chunk split decomposes the buffer around the unique
match found by the scan, with no occurrence starting inside the first
chunk and none in the second. -/
theorem splitOnLF_eq_pair (pat : List Char) (hp : pat ≠ []) :
    ∀ (fuel : Nat) (s a b : List Char), s.length ≤ fuel →
    splitOnLF pat fuel s = [a, b] →
    s = a ++ pat ++ b ∧ NoEarly pat a (pat ++ b) ∧ NoMatch pat b
  | _, [], a, b, _ => by simp [splitOnLF]
  | 0, c :: s, a, b, hlen => by simp at hlen
  | fuel + 1, c :: s, a, b, hlen => by
    simp only [splitOnLF]
    split
    · next hcond =>
      obtain ⟨hpre, -⟩ := (scanCond_iff _ _).mp hcond
      intro heq
      simp only [List.cons.injEq] at heq
      obtain ⟨rfl, hsplit⟩ := heq
      have hdlen : ((c :: s).drop pat.length).length ≤ fuel := by
        have hplen : 1 ≤ pat.length := by
          cases pat with
          | nil => exact absurd rfl hp
          | cons _ _ => simp
        simp only [List.length_drop, List.length_cons]
        simp only [List.length_cons] at hlen
        omega
      obtain ⟨rfl, hnm⟩ := splitOnLF_eq_single pat hp fuel _ b hdlen hsplit
      refine ⟨by simpa using append_drop_decomp hpre, ?_, hnm⟩
      intro p hpa
      simp at hpa
    · next hcond =>
      have hnp : ¬ pat <+: (c :: s) := by
        intro hpre
        exact hcond ((scanCond_iff _ _).mpr ⟨hpre, hp⟩)
      cases hs : splitOnLF pat fuel s with
      | nil => exact absurd hs (splitOnLF_ne_nil _ _ _)
      | cons h t =>
        intro heq
        simp only [List.cons.injEq] at heq
        obtain ⟨rfl, rfl⟩ := heq
        obtain ⟨rfl, hne, hnm⟩ :=
          splitOnLF_eq_pair pat hp fuel s h b (by simpa using hlen) hs
        refine ⟨by simp, ?_, hnm⟩
        intro p hpa
        cases p with
        | zero =>
          simpa using fun hpre => hnp (by simpa using hpre)
        | succ q =>
          simp only [List.length_cons] at hpa
          have := hne q (by omega)
          simpa using this

/-- Construction: if no occurrence starts inside `a` and none occurs in
`t`, the scan splits `a ++ pat ++ t` into exactly the chunks `a`, `t`. -/
theorem splitOnLF_build (pat : List Char) (hp : pat ≠ []) :
    ∀ (a : List Char) (fuel : Nat) (t : List Char),
    (a ++ pat ++ t).length ≤ fuel →
    NoEarly pat a (pat ++ t) → NoMatch pat t →
    splitOnLF pat fuel (a ++ pat ++ t) = [a, t]
  | [], fuel, t => by
    intro hlen hne hnm
    cases pat with
    | nil => exact absurd rfl hp
    | cons pc pt =>
      cases fuel with
      | zero => simp at hlen
      | succ f =>
        show splitOnLF (pc :: pt) (f + 1) (pc :: (pt ++ t)) = [[], t]
        simp only [splitOnLF]
        rw [if_pos]
        · have hdrop : (pc :: (pt ++ t)).drop (pc :: pt).length = t := by
            simp [List.drop_left (pc :: pt) t]
          rw [hdrop, splitOnLF_of_noMatch (pc :: pt) hp f t hnm]
        · refine (scanCond_iff _ _).mpr ⟨?_, hp⟩
          simp [List.prefix_append (pc :: pt) t]
  | c :: a', fuel, t => by
    intro hlen hne hnm
    cases fuel with
    | zero => simp at hlen
    | succ f =>
      show splitOnLF pat (f + 1) (c :: (a' ++ pat ++ t)) = [c :: a', t]
      simp only [splitOnLF]
      rw [if_neg]
      · rw [splitOnLF_build pat hp a' f t (by simpa using hlen)
          (fun p hpa => by simpa using hne (p + 1) (by simp; omega)) hnm]
      · intro hcond
        obtain ⟨hpre, -⟩ := (scanCond_iff _ _).mp hcond
        exact hne 0 (by simp) (by simpa using hpre)

/-- Whether a match can start inside `a` depends only on `a` and the
pattern that immediately follows it, not on what comes after. -/
theorem noEarly_retarget (pat a t t' : List Char)
    (h : NoEarly pat a (pat ++ t)) : NoEarly pat a (pat ++ t') := by
  intro p hpa hpre
  apply h p hpa
  have hlen : pat.length ≤ ((a ++ pat).drop p).length := by
    simp only [List.length_drop, List.length_append]
    omega
  have h1 : pat <+: (a ++ pat).drop p := by
    rw [← List.append_assoc] at hpre
    rw [drop_append_of_le (by simp; omega)] at hpre
    exact (prefix_append_iff_of_le _ _ _ hlen).mp hpre
  rw [← List.append_assoc, drop_append_of_le (by simp; omega)]
  exact (prefix_append_iff_of_le _ _ _ hlen).mpr h1

/-- If `cleanAfter pat X` holds and `pat` does not occur in `b`, then
`pat` does not occur in `X ++ b` either. -/
theorem noMatch_append (pat X b : List Char)
    (hX : cleanAfter pat X = true) (hb : NoMatch pat b) : NoMatch pat (X ++ b) := by
  intro p hpre
  by_cases hpX : p < X.length
  · rw [drop_append_of_le (Nat.le_of_lt hpX)] at hpre
    have hcl := List.all_eq_true.mp hX p (List.mem_range.mpr hpX)
    by_cases hlen : pat.length ≤ X.length - p
    · rw [if_pos hlen] at hcl
      have hfit : pat.length ≤ (X.drop p).length := by
        rw [List.length_drop]; exact hlen
      have : pat <+: X.drop p := (prefix_append_iff_of_le pat (X.drop p) b hfit).mp hpre
      simp only [Bool.not_eq_true', ← Bool.not_eq_true, List.isPrefixOf_iff_prefix] at hcl
      exact hcl this
    · rw [if_neg hlen] at hcl
      have hle : (X.drop p).length ≤ pat.length := by
        rw [List.length_drop]; omega
      have : X.drop p <+: pat := prefix_of_prefix_append pat (X.drop p) b hpre hle
      simp only [Bool.not_eq_true', ← Bool.not_eq_true, List.isPrefixOf_iff_prefix] at hcl
      exact hcl this
  · push_neg at hpX
    rw [List.drop_append_eq_append_drop, List.drop_eq_nil_of_le hpX, List.nil_append] at hpre
    exact hb _ hpre

theorem pySplitNl_ne_nil : ∀ s : List Char, pySplitNl s ≠ []
  | [] => by simp [pySplitNl]
  | c :: s => by
    simp only [pySplitNl]
    split
    · simp
    · split <;> simp

/-- The number of chunks of `split('\n')` is the newline count plus one. -/
theorem pySplitNl_length : ∀ s : List Char,
    (pySplitNl s).length = s.count '\n' + 1
  | [] => by simp [pySplitNl]
  | c :: s => by
    simp only [pySplitNl]
    by_cases hc : c = '\n'
    · simp [hc, pySplitNl_length s, List.count_cons]
    · cases hs : pySplitNl s with
      | nil => exact absurd hs (pySplitNl_ne_nil s)
      | cons h t =>
        have ih := pySplitNl_length s
        rw [hs] at ih
        simp only [if_neg hc, List.length_cons] at ih ⊢
        simp [List.count_cons, hc, ih]

/-- Core invariant of a script run: the apply-phase never touches the
disk, and the single write step runs last.  On failure the disk still
holds the starting content; on success exactly one write happened and
the disk holds the final buffer. -/
theorem execOps_scriptOps (fs : List (List Char → Option (List Char))) :
    ∀ s : FileSt,
    ((execOps (scriptOps fs) s).2 = false →
      (execOps (scriptOps fs) s).1.disk = s.disk ∧
      (execOps (scriptOps fs) s).1.writes = s.writes) ∧
    ((execOps (scriptOps fs) s).2 = true →
      (execOps (scriptOps fs) s).1.writes = s.writes + 1 ∧
      (execOps (scriptOps fs) s).1.disk = (execOps (scriptOps fs) s).1.buf) := by
  induction fs with
  | nil =>
    intro s
    simp [scriptOps, execOps, execOp]
  | cons f fs ih =>
    intro s
    simp only [scriptOps, List.map_cons, List.cons_append, execOps, execOp]
    cases hf : f s.buf with
    | none => simp
    | some b =>
      have := ih { s with buf := b }
      simp only [scriptOps] at this
      simpa using this

/-- Executing an appended list of steps runs the first part, and the
second only if the first completed. -/
theorem execOps_append (xs ys : List FOp) : ∀ s : FileSt,
    execOps (xs ++ ys) s =
      if (execOps xs s).2 then execOps ys (execOps xs s).1 else execOps xs s := by
  induction xs with
  | nil => intro s; simp [execOps]
  | cons op xs ih =>
    intro s
    simp only [List.cons_append, execOps]
    cases hop : execOp s op with
    | none => simp
    | some s2 => simp [ih s2]

/-- An apply-phase of total transformations always completes and leaves
the disk and write count alone; the buffer becomes the left fold of the
transformations. -/
theorem execOps_totalMap (gs : List (List Char → List Char)) : ∀ s : FileSt,
    execOps (gs.map fun g => FOp.applyF (fun b => some (g b))) s =
      ({ disk := s.disk, buf := gs.foldl (fun b g => g b) s.buf, writes := s.writes }, true) := by
  induction gs with
  | nil => intro s; simp [execOps]
  | cons g gs ih => intro s; simp [execOps, execOp, ih]

/-! Wrapper-level corollaries, with the fuel instantiated at the buffer
length (always sufficient). -/

theorem repAll_eq_jn (pat rep s : List Char) :
    repAll pat rep s = jn rep (splitOnL pat s) :=
  repAllF_eq_jn pat rep s.length s

theorem jn_splitOnL (pat s : List Char) : jn pat (splitOnL pat s) = s :=
  jn_splitOnLF pat s.length s

theorem splitOnL_length (pat s : List Char) :
    (splitOnL pat s).length = cntOccs pat s + 1 :=
  splitOnLF_length pat s.length s

theorem cntOccs_eq_zero_iff (pat s : List Char) (hp : pat ≠ []) :
    cntOccs pat s = 0 ↔ NoMatch pat s :=
  cntOccsF_eq_zero_iff pat hp s.length s (Nat.le_refl _)

/-- A rule whose locator never matches is the identity. -/
theorem repAll_of_noMatch (pat rep s : List Char) (hp : pat ≠ [])
    (h : cntOccs pat s = 0) : repAll pat rep s = s := by
  have hnm : NoMatch pat s := (cntOccs_eq_zero_iff pat s hp).mp h
  rw [repAll_eq_jn, splitOnL, splitOnLF_of_noMatch pat hp s.length s hnm, jn_single]

/-- A buffer in which the scan finds exactly one match decomposes as
chunk, pattern, chunk, and replacing rewrites exactly the pattern. -/
theorem repAll_of_single (pat rep s : List Char) (hp : pat ≠ [])
    (h : cntOccs pat s = 1) :
    ∃ a b, s = a ++ pat ++ b ∧ repAll pat rep s = a ++ rep ++ b ∧
      NoEarly pat a (pat ++ b) ∧ NoMatch pat b := by
  have hlen : (splitOnL pat s).length = 2 := by rw [splitOnL_length, h]
  match hs : splitOnL pat s with
  | [] => simp [hs] at hlen
  | [a] => simp [hs] at hlen
  | a :: b :: c :: t => simp [hs] at hlen
  | [a, b] =>
    obtain ⟨hdec, hne, hnm⟩ :=
      splitOnLF_eq_pair pat hp s.length s a b (Nat.le_refl _) hs
    refine ⟨a, b, hdec, ?_, hne, hnm⟩
    rw [repAll_eq_jn, hs, jn_cons _ _ _ (by simp), jn_single]

/-! The claims. -/

/-- C1: applying a rule is a total function (no error is ever signalled,
whatever the match count): when the locator matches zero times the
buffer is returned unchanged, and in general the result replaces every
occurrence the scan finds — the chunk list has exactly `matches + 1`
entries and every separator position is rewritten to the replacement,
so a multiple match is handled by replacing all occurrences, never by a
cardinality error. -/
theorem applyRule_cardinality_silent (buf pat rep : List Char) (hp : pat ≠ []) :
    (cntOccs pat buf = 0 → applyRule buf (pat, rep) = buf) ∧
    applyRule buf (pat, rep) = jn rep (splitOnL pat buf) ∧
    (splitOnL pat buf).length = cntOccs pat buf + 1 :=
  ⟨fun h => repAll_of_noMatch pat rep buf hp h,
   repAll_eq_jn pat rep buf,
   splitOnL_length pat buf⟩

/-- Witness for C1 at a concrete buffer with two matches. -/
theorem applyRule_cardinality_silent_witness :
    (S "a" ≠ ([] : List Char)) ∧
    ((cntOccs (S "a") (S "baba") = 0 → applyRule (S "baba") (S "a", S "cc") = S "baba") ∧
     applyRule (S "baba") (S "a", S "cc") = jn (S "cc") (splitOnL (S "a") (S "baba")) ∧
     (splitOnL (S "a") (S "baba")).length = cntOccs (S "a") (S "baba") + 1) :=
  ⟨by decide, applyRule_cardinality_silent (S "baba") (S "a") (S "cc") (by decide)⟩

/-- C2: the frame property of a rule application.  The buffer splits
into the chunks between the matched spans; joining the chunks with the
locator recovers the input, and applying the rule joins the same,
byte-identical chunks with the replacement — so only the matched spans
change.  For an anchor-and-insert rule the replacement is the landmark
followed by the insertion, so the insertion lands immediately after the
landmark with all other text untouched. -/
theorem applyRule_frame (pat rep ins s : List Char) :
    jn pat (splitOnL pat s) = s ∧
    applyRule s (pat, rep) = jn rep (splitOnL pat s) ∧
    applyRule s (pat, pat ++ ins) = jn (pat ++ ins) (splitOnL pat s) :=
  ⟨jn_splitOnL pat s, repAll_eq_jn pat rep s, repAll_eq_jn pat (pat ++ ins) s⟩

/-- C7: each script's straight-line sequence of replace/sub steps equals
the left fold of rule application over its rule list, starting from the
loaded snapshot. -/
theorem run_equals_fold :
    (∀ c, integrate_phase_2_3 c = List.foldl applyRule c integrateRules) ∧
    (∀ s3 s5 s6 s7 c, integrate_complete s3 s5 s6 s7 c =
      List.foldl applyRuleF c (completeRules s3 s5 s6 s7)) ∧
    (∀ r3 r7 r8 r9 r10 r11 r12 r13 c, final_main r3 r7 r8 r9 r10 r11 r12 r13 c =
      List.foldl applyRuleF c (finalRules r3 r7 r8 r9 r10 r11 r12 r13)) :=
  ⟨fun _ => rfl, fun _ _ _ _ _ => rfl, fun _ _ _ _ _ _ _ _ _ => rfl⟩

/-- C3: a run writes the target file at most once, and only after every
rule has applied.  If any step fails before the write, the disk still
holds the starting content and no write happened; if the run completes,
exactly one write happened and the disk holds the final buffer. -/
theorem run_write_once_atomic (fs : List (List Char → Option (List Char))) (c : List Char) :
    ((execOps (scriptOps fs) (startSt c)).2 = false →
      (execOps (scriptOps fs) (startSt c)).1.disk = c ∧
      (execOps (scriptOps fs) (startSt c)).1.writes = 0) ∧
    ((execOps (scriptOps fs) (startSt c)).2 = true →
      (execOps (scriptOps fs) (startSt c)).1.writes = 1 ∧
      (execOps (scriptOps fs) (startSt c)).1.disk = (execOps (scriptOps fs) (startSt c)).1.buf) := by
  have h := execOps_scriptOps fs (startSt c)
  simpa [startSt] using h

/-- Witness for C3: a run whose single rule raises leaves the disk
holding the starting content with no write performed. -/
theorem run_write_once_atomic_witness :
    (execOps (scriptOps [fun _ => (none : Option (List Char))]) (startSt (S "x"))).1.disk = S "x" ∧
    (execOps (scriptOps [fun _ => (none : Option (List Char))]) (startSt (S "x"))).1.writes = 0 :=
  (run_write_once_atomic [fun _ => none] (S "x")).1 (by decide)

/-- C8: the transformation is deterministic — two runs of the same rule
list from byte-identical input contents produce byte-identical outputs
and identical reported line counts; and every script run is such a run
(shown for complete-phase-2-3.py with its regex steps abstract). -/
theorem run_deterministic :
    (∀ (rules : List (List Char → List Char)) (c1 c2 o1 o2 : List Char),
      c1 = c2 → RunsTo rules c1 o1 → RunsTo rules c2 o2 →
      o1 = o2 ∧ lineCountNl o1 = lineCountNl o2) ∧
    (∀ s3 s5 s6 s7 c, RunsTo (completeRules s3 s5 s6 s7) c (integrate_complete s3 s5 s6 s7 c)) := by
  constructor
  · intro rules c1 c2 o1 o2 hc h1 h2
    subst hc
    suffices h : o1 = o2 by exact ⟨h, by rw [h]⟩
    induction h1 generalizing o2 with
    | done b => cases h2; rfl
    | step r rs b b2 hrec ih =>
      cases h2 with
      | step _ _ _ _ hrec2 => exact ih _ hrec2
  · intro s3 s5 s6 s7 c
    exact .step _ _ _ _ (.step _ _ _ _ (.step _ _ _ _ (.step _ _ _ _ (.step _ _ _ _
      (.step _ _ _ _ (.step _ _ _ _ (.step _ _ _ _ (.done _))))))))

/-- Witness for C8: the determinism statement applied to two actual
derivations of the complete-script run on a concrete buffer. -/
theorem run_deterministic_witness :
    integrate_complete id id id id (S "x") = integrate_complete id id id id (S "x") ∧
    lineCountNl (integrate_complete id id id id (S "x")) =
      lineCountNl (integrate_complete id id id id (S "x")) :=
  run_deterministic.1 (completeRules id id id id) (S "x") (S "x") _ _ rfl
    (run_deterministic.2 id id id id (S "x"))
    (run_deterministic.2 id id id id (S "x"))

/-- C6: the reported summary of a completed run is correct: the original
count is the line count of the loaded snapshot, the new count is the
line count of the final buffer (the fold of the rules, which is also
exactly what the run leaves on disk), the delta is original minus new,
and the percentage is that difference divided by the original count
times 100. -/
theorem run_report_correct (rules : List (List Char × List Char)) (c : List Char) :
    (mkReport c (List.foldl applyRule c rules)).originalLines = lineCountNl c ∧
    (mkReport c (List.foldl applyRule c rules)).newLines =
      lineCountNl (List.foldl applyRule c rules) ∧
    (mkReport c (List.foldl applyRule c rules)).reduction =
      ((mkReport c (List.foldl applyRule c rules)).originalLines : Int) -
      ((mkReport c (List.foldl applyRule c rules)).newLines : Int) ∧
    (mkReport c (List.foldl applyRule c rules)).percentage =
      ((mkReport c (List.foldl applyRule c rules)).reduction : ℚ) /
      ((mkReport c (List.foldl applyRule c rules)).originalLines : ℚ) * 100 ∧
    (execOps (scriptOps (rules.map fun r => fun b => some (applyRule b r))) (startSt c)).1.disk =
      List.foldl applyRule c rules := by
  refine ⟨rfl, rfl, rfl, ?_, ?_⟩
  · simp only [mkReport]
    push_cast
    ring
  · rw [scriptOps, execOps_append]
    have hmap : (rules.map fun r => fun b => some (applyRule b r)).map FOp.applyF =
        (rules.map fun r => fun b => applyRule b r).map (fun g => FOp.applyF (fun b => some (g b))) := by
      simp [List.map_map]
    rw [hmap, execOps_totalMap]
    simp [execOps, execOp, List.foldl_map]
    rfl

/-- C10: on an empty input file, `splitlines()` yields zero lines, so
the percentage step of final-phase-2-3.py divides by zero — modelled as
the failing guard — and this failure happens after the write step: the
run ends unfinished with exactly one write performed and the transformed
buffer already on disk.  The other two scripts count lines with
`split('\n')`, which always yields at least one chunk, so their
percentage division cannot divide by zero. -/
theorem final_empty_divzero_after_write :
    (pySplitlines (S "")).length = 0 ∧
    (∀ s, 1 ≤ (pySplitNl s).length) ∧
    (∀ fs : List (List Char → List Char),
      execOps (finalOpsModel fs (S "")) (startSt (S "")) =
        ({ disk := fs.foldl (fun b g => g b) (S ""),
           buf := fs.foldl (fun b g => g b) (S ""), writes := 1 }, false)) := by
  refine ⟨rfl, ?_, ?_⟩
  · intro s
    rw [pySplitNl_length]
    omega
  · intro fs
    rw [finalOpsModel, execOps_append, execOps_totalMap]
    simp [execOps, execOp, startSt, show pySplitlines (S "") = [] from rfl]

/-- C4 amended: on a fixture that is the landmark line the code actually
matches, one application of the import-insertion rule yields the line
immediately followed by exactly three new import lines (four lines in
all), and a second application inserts three more (seven lines in all,
six of them inserted): the rule is not idempotent. -/
theorem import_insertion_double_apply :
    applyRule apiKeyRotationImport (apiKeyRotationImport, hookRuleRep) =
      apiKeyRotationImport ++ S "\n" ++ hook_imports ∧
    (pySplitNl (applyRule apiKeyRotationImport (apiKeyRotationImport, hookRuleRep))).length = 4 ∧
    applyRule (applyRule apiKeyRotationImport (apiKeyRotationImport, hookRuleRep))
        (apiKeyRotationImport, hookRuleRep) =
      apiKeyRotationImport ++ S "\n" ++ hook_imports ++ S "\n" ++ hook_imports ∧
    (pySplitNl (applyRule (applyRule apiKeyRotationImport (apiKeyRotationImport, hookRuleRep))
        (apiKeyRotationImport, hookRuleRep))).length = 7 := by
  refine ⟨by decide, by decide, by decide, by decide⟩

/-- C5: a fixture containing the captured display-confirmation block
(34 lines: the `pendingDisplayConfirmation` state declaration and its
three callback declarations) exactly once has the entire block replaced
by the two replacement lines (comment plus
`const displayConfirmation = useDisplayConfirmation();`), and the line
count drops by the block's original line count minus two. -/
theorem display_block_replacement_line_delta (s : List Char)
    (h : cntOccs old_display_logic s = 1) :
    (∃ a b, s = a ++ old_display_logic ++ b ∧
      repAll old_display_logic new_display_logic s = a ++ new_display_logic ++ b) ∧
    (pySplitNl old_display_logic).length = 34 ∧
    (pySplitNl new_display_logic).length = 2 ∧
    lineCountNl (repAll old_display_logic new_display_logic s) +
      ((pySplitNl old_display_logic).length - 2) = lineCountNl s := by
  have hp : old_display_logic ≠ [] := by decide
  obtain ⟨a, b, hdec, hres, -, -⟩ :=
    repAll_of_single old_display_logic new_display_logic s hp h
  refine ⟨⟨a, b, hdec, hres⟩, by decide, by decide, ?_⟩
  have hold : old_display_logic.count '\n' = 33 := by decide
  have hnew : new_display_logic.count '\n' = 1 := by decide
  have h34 : (pySplitNl old_display_logic).length = 34 := by decide
  rw [h34, lineCountNl, lineCountNl, pySplitNl_length, pySplitNl_length, hres, hdec]
  simp only [List.count_append, hold, hnew]
  omega

/-- Witness for C5: the fixture that is exactly the captured block. -/
theorem display_block_replacement_line_delta_witness :
    cntOccs old_display_logic old_display_logic = 1 ∧
    ((∃ a b, old_display_logic = a ++ old_display_logic ++ b ∧
      repAll old_display_logic new_display_logic old_display_logic =
        a ++ new_display_logic ++ b) ∧
    (pySplitNl old_display_logic).length = 34 ∧
    (pySplitNl new_display_logic).length = 2 ∧
    lineCountNl (repAll old_display_logic new_display_logic old_display_logic) +
      ((pySplitNl old_display_logic).length - 2) = lineCountNl old_display_logic) :=
  ⟨by decide, display_block_replacement_line_delta old_display_logic (by decide)⟩

/-- C9: both import-insertion steps of final-phase-2-3.py anchor on the
ApiKeyTestDialog import line.  For a buffer containing that landmark
exactly once, after step 1 then step 2, the six component-import lines
(inserted by step 2) sit immediately after the landmark and before the
three hook-import lines (inserted by step 1): the insertion order at
the shared anchor is the reverse of rule order. -/
theorem shared_anchor_insertion_order (s : List Char)
    (h : cntOccs apiKeyTestDialogImport s = 1) :
    ∃ a b, s = a ++ apiKeyTestDialogImport ++ b ∧
      final_step2 (final_step1 s) =
        a ++ apiKeyTestDialogImport ++ (S "\n" ++ component_imports) ++
          (S "\n" ++ hook_imports) ++ b := by
  have hp : apiKeyTestDialogImport ≠ [] := by decide
  obtain ⟨a, b, hdec, hres, hne, hnm⟩ :=
    repAll_of_single apiKeyTestDialogImport
      (apiKeyTestDialogImport ++ S "\n" ++ hook_imports) s hp h
  refine ⟨a, b, hdec, ?_⟩
  have hstep1 : final_step1 s =
      a ++ apiKeyTestDialogImport ++ ((S "\n" ++ hook_imports) ++ b) := by
    show repAll apiKeyTestDialogImport
      (apiKeyTestDialogImport ++ S "\n" ++ hook_imports) s = _
    rw [hres]
    simp [List.append_assoc]
  have hnm2 : NoMatch apiKeyTestDialogImport ((S "\n" ++ hook_imports) ++ b) :=
    noMatch_append _ _ _ (by decide) hnm
  have hne2 : NoEarly apiKeyTestDialogImport a
      (apiKeyTestDialogImport ++ ((S "\n" ++ hook_imports) ++ b)) :=
    noEarly_retarget _ _ _ _ hne
  have hsplit : splitOnL apiKeyTestDialogImport
      (a ++ apiKeyTestDialogImport ++ ((S "\n" ++ hook_imports) ++ b)) =
      [a, (S "\n" ++ hook_imports) ++ b] :=
    splitOnLF_build _ hp a _ _ (Nat.le_refl _) hne2 hnm2
  rw [hstep1]
  show repAll apiKeyTestDialogImport
    (apiKeyTestDialogImport ++ S "\n" ++ component_imports) _ = _
  rw [repAll_eq_jn, hsplit, jn_cons _ _ _ (by simp), jn_single]
  simp [List.append_assoc]

/-- Witness for C9: the buffer that is exactly the landmark line. -/
theorem shared_anchor_insertion_order_witness :
    cntOccs apiKeyTestDialogImport apiKeyTestDialogImport = 1 ∧
    ∃ a b, apiKeyTestDialogImport = a ++ apiKeyTestDialogImport ++ b ∧
      final_step2 (final_step1 apiKeyTestDialogImport) =
        a ++ apiKeyTestDialogImport ++ (S "\n" ++ component_imports) ++
          (S "\n" ++ hook_imports) ++ b :=
  ⟨by decide, shared_anchor_insertion_order apiKeyTestDialogImport (by decide)⟩
